import Mathlib

/-!
Verification of the nhs-index-tool indexing/diff/notification pipeline.

Shallow embedding of the core components of the repository:
  * `database.py` — the SQLite-backed index store (`jobs` table keyed by
    `url`), `index_jobs_with_diff` and `purge_expired`;
  * `cronreindex.py` — the multi-source reindex orchestrator and the
    JSON pending-notification queue;
  * `whatsappbot.py` — message batching (`_split_messages`), digest and
    interval-alert formatting, `send_whatsapp_multi`, `BotState` loading
    and the notify actions.

The SQLite table is modelled as a list of rows whose primary key is the
`url` field; `INSERT OR REPLACE` becomes an in-place replace (or append
when the key is absent).  Python strings are Lean `String`s (Python `len`
counts code points, as does `String.length`).  Wall-clock values
(`datetime.now()`, `date('now')`) and the network transport are passed in
as explicit parameters.  File contents that may be missing or unparsable
are modelled by small inductive types with `missing`/`corrupt` cases.
-/

/-- One job listing, mirroring `JobItem` in `jobitem.py` (and the schema of
the `jobs` table in `database.py`).  `date_posted` and `closing_date`
default to Python `None`, modelled by `Option.none`; empty strings are a
distinct value, exactly as in SQLite (where `''` is not `NULL`). -/
structure Job where
  url : String
  title : String := ""
  employer : String := ""
  location : String := ""
  salary : String := ""
  date_posted : Option String := none
  closing_date : Option String := none
  contract_type : String := ""
  working_pattern : String := ""
  description : String := ""
  job_reference : String := ""
  source : String := ""
  staff_group : String := ""
deriving DecidableEq, Repr

/-- The `jobs` table: a list of rows, keyed by the `url` field
(`url TEXT PRIMARY KEY`). -/
abbrev Store : Type := List Job

/-- The URLs currently present in the store
(`SELECT url FROM jobs`, read as a snapshot). -/
def storeUrls (s : Store) : List String :=
  s.map (fun r => r.url)

/-- Whether a URL is already present in the store. -/
def hasUrl (s : Store) (u : String) : Bool :=
  (storeUrls s).contains u

/-- `INSERT OR REPLACE INTO jobs ... VALUES (...)`: with `url` the primary
key, an existing row with the same `url` is replaced wholesale, otherwise
the row is appended. -/
def upsert (j : Job) (s : Store) : Store :=
  if hasUrl s j.url then
    s.map (fun r => if r.url = j.url then j else r)
  else
    s ++ [j]

/-- Applying the batch upsert `cur.executemany("INSERT OR REPLACE ...", rows)`
in input order (duplicate URLs: last write wins). -/
def applyBatch (jobs : List Job) (s : Store) : Store :=
  jobs.foldl (fun acc j => upsert j acc) s

/-- The value returned by `index_jobs_with_diff`, together with the store
it leaves behind. -/
structure DiffResult where
  new_jobs : List Job
  updated_jobs : List Job
  total_indexed : Nat
  store : Store
deriving Repr

/-- `database.index_jobs_with_diff(jobs, db_path)`:
snapshot the existing URLs, classify each incoming job (in input order)
as new (URL absent from the snapshot) or updated (URL present), upsert
every incoming row, and report `len(rows)` as the total indexed. -/
def index_jobs_with_diff (jobs : List Job) (s : Store) : DiffResult :=
  let existing_urls := storeUrls s
  { new_jobs := jobs.filter (fun j => !(existing_urls.contains j.url)),
    updated_jobs := jobs.filter (fun j => existing_urls.contains j.url),
    total_indexed := jobs.length,
    store := applyBatch jobs s }

/-- Lexicographic comparison of character sequences: SQLite's binary
collation for TEXT values (the empty string sorts before everything
nonempty). -/
def charListLt : List Char → List Char → Bool
  | [], [] => false
  | [], _ :: _ => true
  | _ :: _, [] => false
  | a :: as, b :: bs =>
    if a < b then true
    else if b < a then false
    else charListLt as bs

/-- The SQL predicate
`closing_date IS NOT NULL AND closing_date < date('now')` from
`purge_expired`.  SQLite compares the TEXT values with binary collation,
i.e. lexicographically; `today` stands for `date('now')`.  Note that the
empty string is not `NULL` and sorts before every date string. -/
def isExpired (today : String) (j : Job) : Bool :=
  match j.closing_date with
  | none => false
  | some d => charListLt d.data today.data

/-- `database.purge_expired(db_path)`: delete every expired row, returning
`cur.rowcount` (the number of deleted rows) and the remaining table. -/
def purge_expired (today : String) (s : Store) : Nat × Store :=
  ((s.filter (isExpired today)).length, s.filter (fun j => !(isExpired today j)))

/-- The outcome of invoking one configured source's connector
(`connector.get_all_items_multi(max_pages=0)`): either the fetched batch
of listings, or the message of the exception it raised. -/
abbrev SourceOutcome : Type := Except String (List Job)

/-- `cronreindex.reindex_all_sources` / `whatsappbot.run_reindex`: for each
configured source in order, invoke its connector; on success run the batch
through `index_jobs_with_diff` (threading the store) and collect the NEW
records; on an exception, log and continue with the next source. -/
def reindex_all_sources (sources : List SourceOutcome) (s : Store) :
    List Job × Store :=
  sources.foldl
    (fun acc src =>
      match src with
      | .error _ => acc
      | .ok items =>
        let r := index_jobs_with_diff items acc.2
        (acc.1 ++ r.new_jobs, r.store))
    ([], s)

/-- One entry of the pending-notification queue (`new_jobs.json`), as
written by `cronreindex.write_notifications`. -/
structure NotificationEntry where
  timestamp : String
  title : String
  employer : String
  location : String
  salary : String
  contract_type : String
  working_pattern : String
  url : String
  source : String
deriving DecidableEq, Repr

/-- The denormalised snapshot appended for one NEW job. -/
def mkNotificationEntry (ts : String) (j : Job) : NotificationEntry :=
  { timestamp := ts, title := j.title, employer := j.employer,
    location := j.location, salary := j.salary,
    contract_type := j.contract_type, working_pattern := j.working_pattern,
    url := j.url, source := j.source }

/-- The on-disk state of the queue file `new_jobs.json`: absent, present
but not valid JSON, or a well-formed array of entries. -/
inductive QueueFile where
  | missing
  | corrupt
  | good (entries : List NotificationEntry)
deriving DecidableEq, Repr

/-- How every reader of the queue file interprets its content: a missing
file and corrupt JSON are both read as the empty array. -/
def decodeQueue : QueueFile → List NotificationEntry
  | .missing => []
  | .corrupt => []
  | .good l => l

/-- `cronreindex.write_notifications(new_jobs, logger)`: load the existing
array (treating a missing or corrupt file as empty), append one entry per
job, and write the result back. -/
def write_notifications (ts : String) (new_jobs : List Job) (f : QueueFile) :
    QueueFile :=
  .good (decodeQueue f ++ new_jobs.map (mkNotificationEntry ts))

/-- `cronreindex.read_pending_notifications()`: return the pending list
without touching the file; a missing or unparsable file reads as `[]`. -/
def read_pending_notifications (f : QueueFile) : List NotificationEntry :=
  decodeQueue f

/-- `cronreindex.consume_notifications()`: read the pending list, then
overwrite the file with `'[]'`; a missing file is returned as `[]` and is
not created. -/
def consume_notifications (f : QueueFile) : List NotificationEntry × QueueFile :=
  match f with
  | .missing => ([], .missing)
  | .corrupt => ([], .good [])
  | .good l => (l, .good [])

/-- `whatsappbot.send_whatsapp_multi(messages)`: attempt every message in
sequence, recording each attempt; the overall result is `True` only if no
individual send failed.  `transport` gives the outcome of
`send_whatsapp` for each message body. -/
def send_whatsapp_multi (transport : String → Bool) (messages : List String) :
    List (String × Bool) × Bool :=
  messages.foldl
    (fun acc msg => (acc.1 ++ [(msg, transport msg)], acc.2 && transport msg))
    ([], true)

/-- `WHATSAPP_CHAR_LIMIT` in `whatsappbot.py`. -/
def WHATSAPP_CHAR_LIMIT : Nat := 1500

/-- The loop state of `_split_messages`: the flushed messages, the entries
of the message being built, and the running character count
(`current_len`). -/
structure SplitState where
  messages : List String
  current : List String
  currentLen : Nat

/-- One iteration of the `for entry in job_entries` loop of
`_split_messages`: flush the current message when adding the entry would
exceed the limit (and the current message is nonempty), then append the
entry. -/
def splitStep (header footer : String) (st : SplitState) (entry : String) :
    SplitState :=
  if WHATSAPP_CHAR_LIMIT < st.currentLen + entry.length + footer.length ∧
      st.current ≠ [] then
    { messages := st.messages ++
        [(if st.messages = [] then header else "") ++ String.join st.current],
      current := [entry],
      currentLen := entry.length }
  else
    { st with current := st.current ++ [entry],
              currentLen := st.currentLen + entry.length }

/-- `_split_messages` before part numbering: run the packing loop and then
flush the remainder, attaching the footer to the last message (the header
goes on the first message only). -/
def split_core (header : String) (entries : List String) (footer : String) :
    List String :=
  let st := entries.foldl (splitStep header footer)
    { messages := [], current := [], currentLen := header.length }
  if st.current ≠ [] ∨ st.messages = [] then
    st.messages ++
      [(if st.messages = [] then header else "") ++
        String.join st.current ++ footer]
  else
    match st.messages.getLast? with
    | some last => st.messages.dropLast ++ [last ++ footer]
    | none => st.messages

/-- The `"[i/N]\n"` part marker prepended when more than one message
results. -/
def partMarker (i n : Nat) : String :=
  "[" ++ toString i ++ "/" ++ toString n ++ "]\n"

/-- `whatsappbot._split_messages(header, job_entries, footer='')`:
pack the entries, then prepend a part marker to every message when the
result has more than one part. -/
def split_messages (header : String) (entries : List String)
    (footer : String) : List String :=
  let ms := split_core header entries footer
  if 1 < ms.length then
    ms.mapIdx (fun i m => partMarker (i + 1) ms.length ++ m)
  else
    ms

/-- `whatsappbot._format_job_entry(i, job)`: one pre-rendered listing
block (title and employer truncated, salary and URL included when
present). -/
def format_job_entry (i : Nat) (j : Job) : String :=
  let title := if 60 < j.title.length then j.title.take 60 ++ "…" else j.title
  let employer :=
    if 40 < j.employer.length then j.employer.take 40 ++ "…" else j.employer
  let salary_part := if j.salary ≠ "" then " | " ++ j.salary else ""
  let entry := toString i ++ ". *" ++ title ++ "*\n   " ++ employer ++
    salary_part ++ "\n"
  let entry := if j.url ≠ "" then entry ++ "   " ++ j.url ++ "\n" else entry
  entry ++ "\n"

/-- `whatsappbot.format_morning_digest(new_jobs, total_in_db)` with the
rendered `date_str` (from `datetime.now()`) passed explicitly: with no new
jobs a single fixed message carrying the index total; otherwise the
formatted entries are packed by `_split_messages`. -/
def format_morning_digest (date_str : String) (new_jobs : List Job)
    (total_in_db : Nat) : List String :=
  if new_jobs = [] then
    ["🏥 *NHS Job Search — Morning Update*\n📅 " ++ date_str ++
      "\n\nNo new roles matching your search since yesterday.\n\n📊 " ++
      toString total_in_db ++ " jobs in your index."]
  else
    let header := "🏥 *NHS Job Search — Morning Update*\n📅 " ++ date_str ++
      "\n\n✨ *" ++ toString new_jobs.length ++ " new role" ++
      (if new_jobs.length ≠ 1 then "s" else "") ++ "* since yesterday:\n\n"
    let footer := "\n📊 " ++ toString total_in_db ++
      " total jobs in your index."
    let entries := new_jobs.mapIdx (fun i j => format_job_entry (i + 1) j)
    split_messages header entries footer

/-- `whatsappbot.format_interval_alert(new_jobs)` with the rendered time
string passed explicitly (default footer `''`). -/
def format_interval_alert (time_str : String) (new_jobs : List Job) :
    List String :=
  let header := "🔔 *New roles just posted*\n📅 " ++ time_str ++ "\n\n" ++
    toString new_jobs.length ++ " new role" ++
    (if new_jobs.length ≠ 1 then "s" else "") ++ " since last check:\n\n"
  let entries := new_jobs.mapIdx (fun i j => format_job_entry (i + 1) j)
  split_messages header entries ""

/-- The keys of the `BotState` JSON dict used by the notify actions.
Keys read with `state.get(key, default)` that are absent from the default
dict written by `_load` (such as `last_notify_urls`) are modelled with
their `get` default. -/
structure BotStateData where
  last_morning_notify : Option String := none
  last_afternoon_notify : Option String := none
  last_interval_notify : Option String := none
  last_reindex : Option String := none
  morning_job_urls : List String := []
  last_notify_urls : List String := []
deriving DecidableEq, Repr

/-- The defaults returned by `BotState._load` when the state file is
missing or unparsable. -/
def defaultBotState : BotStateData := {}

/-- The on-disk state of the `whatsapp_state.json` file. -/
inductive StateFile where
  | missing
  | corrupt
  | good (st : BotStateData)
deriving DecidableEq, Repr

/-- The underlying read-and-parse of the BotState file
(`self.state_file.read_text()` + `json.loads`), which fails on corrupt
content. -/
def parse_state_text : StateFile → Except Unit BotStateData
  | .missing => .error ()
  | .corrupt => .error ()
  | .good st => .ok st

/-- `BotState._load`: if the file exists, try to parse it, and on
`JSONDecodeError`/`IOError` fall through (`pass`) to the defaults; a
missing file also yields the defaults. -/
def load_bot_state : StateFile → BotStateData
  | .good st => st
  | _ => defaultBotState

/-- `whatsappbot.action_morning_notify(db_path, bot_state)`.
`now`/`date_str` stand for the wall clock, `all_jobs` for
`database.get_all_jobs(db_path)`, and `recent_jobs` for the
clock-dependent first-run fallback `_jobs_posted_since(all_jobs, 24)`.
Returns the outbound messages and the state after the cycle: on a
successful send the timestamps and URL baselines are advanced, on a failed
send the state is left untouched. -/
def action_morning_notify (now date_str : String) (all_jobs recent_jobs : List Job)
    (st : BotStateData) (transport : String → Bool) :
    List String × BotStateData :=
  let total_count := all_jobs.length
  let morning_urls := st.morning_job_urls
  let new_jobs :=
    if morning_urls ≠ [] then
      all_jobs.filter (fun j => !(morning_urls.contains j.url))
    else
      recent_jobs
  let messages := format_morning_digest date_str new_jobs total_count
  let success := (send_whatsapp_multi transport messages).2
  if success then
    (messages,
      { st with last_morning_notify := some now,
                morning_job_urls := all_jobs.map (fun j => j.url),
                last_notify_urls := all_jobs.map (fun j => j.url) })
  else
    (messages, st)

/-- `whatsappbot.action_interval_notify(db_path, bot_state)`: skip (send
nothing) when no baseline exists or when no job's URL is new against the
baseline; otherwise send the alert, and advance the baseline only when the
send succeeded. -/
def action_interval_notify (now time_str : String) (all_jobs : List Job)
    (st : BotStateData) (transport : String → Bool) :
    List String × BotStateData :=
  let baseline_urls := st.last_notify_urls
  if baseline_urls = [] then
    ([], st)
  else
    let new_jobs := all_jobs.filter (fun j => !(baseline_urls.contains j.url))
    if new_jobs = [] then
      ([], st)
    else
      let messages := format_interval_alert time_str new_jobs
      let success := (send_whatsapp_multi transport messages).2
      if success then
        (messages,
          { st with last_interval_notify := some now,
                    last_notify_urls := all_jobs.map (fun j => j.url) })
      else
        (messages, st)

/-! ### Helper lemmas about the store -/

theorem storeUrls_upsert (j : Job) (s : Store) :
    storeUrls (upsert j s) =
      if hasUrl s j.url then storeUrls s else storeUrls s ++ [j.url] := by
  unfold upsert
  split
  · simp only [storeUrls, List.map_map, if_pos ‹_›]
    apply List.map_congr_left
    intro r _
    by_cases h : r.url = j.url <;> simp [h]
  · simp [storeUrls, if_neg ‹_›]

theorem mem_storeUrls_upsert_self (j : Job) (s : Store) :
    j.url ∈ storeUrls (upsert j s) := by
  rw [storeUrls_upsert]
  split
  · have : (storeUrls s).contains j.url = true := ‹_›
    simpa using this
  · simp

theorem mem_storeUrls_upsert_of_mem (j : Job) (s : Store) (u : String)
    (h : u ∈ storeUrls s) : u ∈ storeUrls (upsert j s) := by
  rw [storeUrls_upsert]
  split <;> simp [h]

theorem mem_storeUrls_applyBatch_of_mem (jobs : List Job) (s : Store)
    (u : String) (h : u ∈ storeUrls s) : u ∈ storeUrls (applyBatch jobs s) := by
  induction jobs generalizing s with
  | nil => exact h
  | cons j t ih => exact ih (upsert j s) (mem_storeUrls_upsert_of_mem j s u h)

theorem mem_storeUrls_applyBatch (jobs : List Job) (s : Store) (j : Job)
    (h : j ∈ jobs) : j.url ∈ storeUrls (applyBatch jobs s) := by
  induction jobs generalizing s with
  | nil => cases h
  | cons k t ih =>
    cases h with
    | head =>
      exact mem_storeUrls_applyBatch_of_mem t (upsert j s) j.url
        (mem_storeUrls_upsert_self j s)
    | tail _ hm => exact ih (upsert k s) hm

theorem hasUrl_congr (a b : Store) (h : storeUrls a = storeUrls b) (u : String) :
    hasUrl a u = hasUrl b u := by
  simp [hasUrl, h]

theorem storeUrls_applyBatch_stable (jobs : List Job) (s : Store)
    (h : ∀ j ∈ jobs, hasUrl s j.url = true) :
    storeUrls (applyBatch jobs s) = storeUrls s := by
  induction jobs generalizing s with
  | nil => rfl
  | cons j t ih =>
    have hj : hasUrl s j.url = true := h j (List.mem_cons_self j t)
    have hu : storeUrls (upsert j s) = storeUrls s := by
      rw [storeUrls_upsert, if_pos hj]
    have ht : ∀ k ∈ t, hasUrl (upsert j s) k.url = true := by
      intro k hk
      rw [hasUrl_congr _ s hu]
      exact h k (List.mem_cons_of_mem j hk)
    calc storeUrls (applyBatch (j :: t) s)
        = storeUrls (applyBatch t (upsert j s)) := rfl
      _ = storeUrls (upsert j s) := ih (upsert j s) ht
      _ = storeUrls s := hu


/-- Row lookup by primary key (first row matching the URL). -/
def getRow : Store → String → Option Job
  | [], _ => none
  | r :: t, u => if r.url = u then some r else getRow t u

theorem getRow_eq_none_of_not_mem (s : Store) (u : String)
    (h : u ∉ storeUrls s) : getRow s u = none := by
  induction s with
  | nil => rfl
  | cons r t ih =>
    have h1 : ¬ r.url = u := by
      intro hc
      exact h (hc ▸ List.mem_cons_self r.url (storeUrls t))
    have h2 : u ∉ storeUrls t := by
      intro hc
      exact h (List.mem_cons_of_mem r.url hc)
    simp [getRow, h1, ih h2]

theorem not_mem_storeUrls_of_not_hasUrl (s : Store) (u : String)
    (h : hasUrl s u = false) : u ∉ storeUrls s := by
  intro hm
  have : hasUrl s u = true := by simp [hasUrl, hm]
  rw [this] at h
  cases h

theorem getRow_replace (s : Store) (j : Job) (u : String) :
    getRow (s.map (fun r => if r.url = j.url then j else r)) u =
      if u = j.url then (if hasUrl s u then some j else none)
      else getRow s u := by
  induction s with
  | nil => by_cases h : u = j.url <;> simp [h, getRow, hasUrl, storeUrls]
  | cons r t ih =>
    by_cases hr : r.url = j.url
    · by_cases hu : u = j.url
      · subst hu
        have hh : hasUrl (r :: t) j.url = true := by
          simp [hasUrl, storeUrls, hr]
        simp [getRow, hr, hh]
      · have hju : ¬ j.url = u := fun hc => hu hc.symm
        have hh : hasUrl (r :: t) u = hasUrl t u := by
          have : ¬ u = r.url := fun hc => hu (hc.trans hr)
          simp [hasUrl, storeUrls, List.contains_cons, this]
        simp [getRow, hr, hju, ih, hu, hh]
    · by_cases hm : r.url = u
      · have hu : ¬ u = j.url := fun hc => hr (hm.trans hc)
        simp [getRow, hr, hm, hu]
      · by_cases hu : u = j.url
        · subst hu
          have hh : hasUrl (r :: t) j.url = hasUrl t j.url := by
            have : ¬ j.url = r.url := fun hc => hm hc.symm
            simp [hasUrl, storeUrls, List.contains_cons, this]
          simp [getRow, hr, hm, hh, ih]
        · simp [getRow, hr, hm, hu, ih]

theorem getRow_append (s1 s2 : Store) (u : String) :
    getRow (s1 ++ s2) u = (getRow s1 u).or (getRow s2 u) := by
  induction s1 with
  | nil => simp [getRow]
  | cons r t ih =>
    by_cases h : r.url = u <;> simp [getRow, h, ih]

theorem getRow_upsert (j : Job) (s : Store) (u : String) :
    getRow (upsert j s) u = if u = j.url then some j else getRow s u := by
  unfold upsert
  by_cases hp : hasUrl s j.url
  · rw [if_pos hp, getRow_replace]
    by_cases hu : u = j.url
    · rw [if_pos hu, if_pos hu, if_pos (hu ▸ hp)]
    · rw [if_neg hu, if_neg hu]
  · rw [if_neg hp, getRow_append]
    by_cases hu : u = j.url
    · have h1 : getRow s u = none := by
        apply getRow_eq_none_of_not_mem
        rw [hu]
        exact not_mem_storeUrls_of_not_hasUrl s j.url (Bool.of_not_eq_true hp)
      rw [h1, Option.none_or, if_pos hu]
      simp [getRow, hu]
    · have h2 : ¬ j.url = u := fun hc => hu hc.symm
      simp [getRow, h2, hu]

theorem getRow_applyBatch (jobs : List Job) (s : Store) (u : String) :
    getRow (applyBatch jobs s) u =
      (jobs.reverse.find? (fun j => j.url == u)).or (getRow s u) := by
  induction jobs generalizing s with
  | nil => simp [applyBatch]
  | cons j t ih =>
    have step : applyBatch (j :: t) s = applyBatch t (upsert j s) := rfl
    rw [step, ih, List.reverse_cons, List.find?_append, Option.or_assoc,
      getRow_upsert]
    congr 1
    by_cases hu : j.url = u
    · simp [List.find?, hu]
    · have h2 : (j.url == u) = false := by simpa using hu
      have h3 : ¬ u = j.url := fun hc => hu hc.symm
      simp [List.find?, h2, h3]

theorem nodup_storeUrls_upsert (j : Job) (s : Store)
    (h : (storeUrls s).Nodup) : (storeUrls (upsert j s)).Nodup := by
  rw [storeUrls_upsert]
  split
  · exact h
  · have hn : j.url ∉ storeUrls s := by
      intro hm
      have : hasUrl s j.url = true := by simp [hasUrl, hm]
      exact absurd this ‹_›
    simp [List.nodup_append, h, hn]

theorem nodup_storeUrls_applyBatch (jobs : List Job) (s : Store)
    (h : (storeUrls s).Nodup) : (storeUrls (applyBatch jobs s)).Nodup := by
  induction jobs generalizing s with
  | nil => exact h
  | cons j t ih => exact ih (upsert j s) (nodup_storeUrls_upsert j s h)

theorem store_ext (a : Store) : ∀ (b : Store), storeUrls a = storeUrls b →
    (storeUrls a).Nodup → (∀ u, getRow a u = getRow b u) → a = b := by
  induction a with
  | nil =>
    intro b hu _ _
    cases b with
    | nil => rfl
    | cons r t => simp [storeUrls] at hu
  | cons r t ih =>
    intro b hu hn hg
    cases b with
    | nil => simp [storeUrls] at hu
    | cons r' t' =>
      have hurl : r.url = r'.url ∧ storeUrls t = storeUrls t' := by
        simpa [storeUrls] using hu
      have hhead : r = r' := by
        have h1 := hg r.url
        simp [getRow, hurl.1.symm] at h1
        exact h1
      have hcons : storeUrls (r :: t) = r.url :: storeUrls t := rfl
      rw [hcons, List.nodup_cons] at hn
      have hrnot : r.url ∉ storeUrls t := hn.1
      have hrnot' : r.url ∉ storeUrls t' := hurl.2 ▸ hrnot
      have htails : ∀ u, getRow t u = getRow t' u := by
        intro u
        by_cases hcase : r.url = u
        · rw [getRow_eq_none_of_not_mem t u (hcase ▸ hrnot),
            getRow_eq_none_of_not_mem t' u (hcase ▸ hrnot')]
        · have h1 := hg u
          have hc' : ¬ r'.url = u := hurl.1 ▸ hcase
          simpa [getRow, hcase, hc'] using h1
      rw [hhead, ih t' hurl.2 hn.2 htails]

theorem hasUrl_eq_true_of_mem (s : Store) (u : String)
    (h : u ∈ storeUrls s) : hasUrl s u = true := by
  simp [hasUrl, h]

/-- **C1** — Idempotent re-upsert: re-running `index_jobs_with_diff` on the
same batch yields an empty NEW list on the second call, and the table
after the second call is identical (row for row) to the table after the
first call.  The hypothesis is the `url TEXT PRIMARY KEY` invariant of the
`jobs` table: no two rows share a URL. -/
theorem idempotent_reupsert (jobs : List Job) (s : Store)
    (hnd : (storeUrls s).Nodup) :
    (index_jobs_with_diff jobs (index_jobs_with_diff jobs s).store).new_jobs = []
    ∧ (index_jobs_with_diff jobs (index_jobs_with_diff jobs s).store).store
        = (index_jobs_with_diff jobs s).store := by
  have hs1 : (index_jobs_with_diff jobs s).store = applyBatch jobs s := rfl
  have hmem : ∀ j ∈ jobs, hasUrl (applyBatch jobs s) j.url = true := by
    intro j hj
    exact hasUrl_eq_true_of_mem _ _ (mem_storeUrls_applyBatch jobs s j hj)
  constructor
  · show jobs.filter _ = []
    rw [List.filter_eq_nil_iff]
    intro j hj
    have := hmem j hj
    simp only [hasUrl] at this
    rw [hs1, this]
    simp
  · rw [hs1]
    show applyBatch jobs (applyBatch jobs s) = applyBatch jobs s
    apply store_ext
    · exact storeUrls_applyBatch_stable jobs (applyBatch jobs s) hmem
    · exact nodup_storeUrls_applyBatch jobs _
        (nodup_storeUrls_applyBatch jobs s hnd)
    · intro u
      rw [getRow_applyBatch, getRow_applyBatch]
      cases jobs.reverse.find? (fun j => j.url == u) <;> simp

/-- Concrete instance of C1: indexing a three-record batch twice into an
empty store. -/
theorem idempotent_reupsert_witness :
    (index_jobs_with_diff
        [{ url := "https://x/1" }, { url := "https://x/2" }, { url := "https://x/1", title := "updated" }]
        (index_jobs_with_diff
          [{ url := "https://x/1" }, { url := "https://x/2" }, { url := "https://x/1", title := "updated" }]
          ([] : Store)).store).new_jobs = []
    ∧ (index_jobs_with_diff
        [{ url := "https://x/1" }, { url := "https://x/2" }, { url := "https://x/1", title := "updated" }]
        (index_jobs_with_diff
          [{ url := "https://x/1" }, { url := "https://x/2" }, { url := "https://x/1", title := "updated" }]
          ([] : Store)).store).store
        = (index_jobs_with_diff
            [{ url := "https://x/1" }, { url := "https://x/2" }, { url := "https://x/1", title := "updated" }]
            ([] : Store)).store :=
  idempotent_reupsert _ ([] : Store) (by decide)

/-- **C2 counterexample** — two occurrences of the same snapshot-absent URL
in one batch are BOTH classified NEW (and neither is classified SEEN),
refuting "NEW at most once, subsequent occurrences SEEN": on the batch
`[A, B]` with `A.url = B.url = "u"` against an empty store, the NEW list
contains the URL twice and the SEEN list is empty. -/
theorem inbatch_duplicate_counterexample :
    (index_jobs_with_diff
        [{ url := "u", title := "first" }, { url := "u", title := "second" }]
        ([] : Store)).new_jobs
      = [{ url := "u", title := "first" }, { url := "u", title := "second" }]
    ∧ (index_jobs_with_diff
        [{ url := "u", title := "first" }, { url := "u", title := "second" }]
        ([] : Store)).new_jobs.countP (fun j => j.url == "u") = 2
    ∧ (index_jobs_with_diff
        [{ url := "u", title := "first" }, { url := "u", title := "second" }]
        ([] : Store)).updated_jobs = [] := by
  refine ⟨rfl, rfl, rfl⟩

/-- **C2 (amended)** — classification is computed purely from the pre-batch
snapshot, so every occurrence of a snapshot-absent URL in the batch is
classified NEW, and no occurrence of it is classified SEEN. -/
theorem inbatch_duplicates_all_new (jobs : List Job) (s : Store) (u : String)
    (h : hasUrl s u = false) :
    (index_jobs_with_diff jobs s).new_jobs.filter (fun j => j.url == u)
      = jobs.filter (fun j => j.url == u)
    ∧ (index_jobs_with_diff jobs s).updated_jobs.filter (fun j => j.url == u)
      = [] := by
  simp only [hasUrl] at h
  constructor
  · show (jobs.filter _).filter _ = _
    rw [List.filter_filter]
    apply List.filter_congr
    intro j _
    by_cases hj : j.url = u
    · simp [hj, h]
      exact not_mem_storeUrls_of_not_hasUrl s u h
    · simp [hj]
  · show (jobs.filter _).filter _ = _
    rw [List.filter_filter]
    rw [List.filter_eq_nil_iff]
    intro j _
    by_cases hj : j.url = u
    · simp [hj, h]
      exact not_mem_storeUrls_of_not_hasUrl s u h
    · simp [hj]

/-- Concrete instance of the amended C2: URL `"u"` absent from a one-row
store, appearing twice in the batch. -/
theorem inbatch_duplicates_all_new_witness :
    (index_jobs_with_diff
        [{ url := "u" }, { url := "w" }, { url := "u", title := "again" }]
        ([{ url := "w" }] : Store)).new_jobs.filter (fun j => j.url == "u")
      = [{ url := "u" }, { url := "w" }, { url := "u", title := "again" }].filter
          (fun j => j.url == "u")
    ∧ (index_jobs_with_diff
        [{ url := "u" }, { url := "w" }, { url := "u", title := "again" }]
        ([{ url := "w" }] : Store)).updated_jobs.filter (fun j => j.url == "u")
      = [] :=
  inbatch_duplicates_all_new _ _ "u" (by decide)

/-- A stored record whose closing date was yesterday. -/
def jobClosedYesterday : Job := { url := "https://x/y", closing_date := some "2026-10-11" }

/-- A stored record whose closing date is tomorrow. -/
def jobClosesTomorrow : Job := { url := "https://x/t", closing_date := some "2026-10-13" }

/-- A stored record with `NULL` closing date (Python `None`). -/
def jobNullClosing : Job := { url := "https://x/n", closing_date := none }

/-- A stored record with an empty-string closing date, as produced by the
connectors when the closing date is unknown (`dwpconnector.py:297`,
`nhsconnector.py:225` set `closing_date=''`). -/
def jobEmptyClosing : Job := { url := "https://x/e", closing_date := some "" }

/-- **C3** — Expiry boundary, evaluated at the failing input.  With
`date('now') = "2026-10-12"`, `purge_expired` removes the record closing
yesterday and retains the record closing tomorrow and the `NULL`-dated
record, as the claim says — but it ALSO removes the record whose
`closing_date` is the empty string (`''` is not `NULL` and `'' <
'2026-10-12'` under SQLite's text comparison), contradicting the claim
that a record with empty `closing_date` is retained regardless of age. -/
theorem expiry_boundary_failing_input :
    purge_expired "2026-10-12"
        [jobClosedYesterday, jobClosesTomorrow, jobNullClosing, jobEmptyClosing]
      = (2, [jobClosesTomorrow, jobNullClosing])
    ∧ isExpired "2026-10-12" jobEmptyClosing = true := by
  refine ⟨by decide, by decide⟩

/-- **C4** — Cross-source failure isolation: the reindex orchestrator run
over any source list produces exactly the NEW records and final store of
the run over the successful sources alone, in order — a raising connector
contributes zero records and does not disturb the other sources.  In
particular deleting any failed source from the list leaves the result
unchanged. -/
theorem cross_source_isolation (sources : List SourceOutcome) (s : Store) :
    reindex_all_sources sources s
      = reindex_all_sources (sources.filter (fun src => src.isOk)) s
    ∧ ∀ (pre post : List SourceOutcome) (msg : String),
        reindex_all_sources (pre ++ .error msg :: post) s
          = reindex_all_sources (pre ++ post) s := by
  have key : ∀ (l : List SourceOutcome) (acc : List Job × Store),
      l.foldl (fun acc src =>
        match src with
        | .error _ => acc
        | .ok items =>
          let r := index_jobs_with_diff items acc.2
          (acc.1 ++ r.new_jobs, r.store)) acc
      = (l.filter (fun src => src.isOk)).foldl (fun acc src =>
        match src with
        | .error _ => acc
        | .ok items =>
          let r := index_jobs_with_diff items acc.2
          (acc.1 ++ r.new_jobs, r.store)) acc := by
    intro l
    induction l with
    | nil => intro acc; rfl
    | cons src t ih =>
      intro acc
      cases src with
      | error e => simpa [Except.isOk, List.filter] using ih acc
      | ok items => simpa [Except.isOk, List.filter] using ih _
  constructor
  · exact key sources ([], s)
  · intro pre post msg
    show (pre ++ .error msg :: post).foldl _ ([], s) = (pre ++ post).foldl _ ([], s)
    rw [List.foldl_append, List.foldl_append, List.foldl_cons]

/-- **C8** — Pending-queue semantics: enqueuing appends to what a reader
sees, draining returns the pending list and resets the file to the empty
array, and the spec's concrete scenario (enqueue 2, peek 2, enqueue 1,
peek 3, drain 3, peek 0) holds from an initially absent queue file. -/
theorem pending_queue_semantics :
    (∀ (ts : String) (jobs : List Job) (f : QueueFile),
      read_pending_notifications (write_notifications ts jobs f)
        = read_pending_notifications f ++ jobs.map (mkNotificationEntry ts))
    ∧ (∀ f : QueueFile, (consume_notifications f).1 = read_pending_notifications f)
    ∧ (∀ f : QueueFile, read_pending_notifications (consume_notifications f).2 = [])
    ∧ ((read_pending_notifications
          (write_notifications "t1" [{ url := "u1" }, { url := "u2" }] .missing)).length = 2
        ∧ (read_pending_notifications
            (write_notifications "t2" [{ url := "u3" }]
              (write_notifications "t1" [{ url := "u1" }, { url := "u2" }] .missing))).length = 3
        ∧ (consume_notifications
            (write_notifications "t2" [{ url := "u3" }]
              (write_notifications "t1" [{ url := "u1" }, { url := "u2" }] .missing))).1.length = 3
        ∧ (read_pending_notifications
            (consume_notifications
              (write_notifications "t2" [{ url := "u3" }]
                (write_notifications "t1" [{ url := "u1" }, { url := "u2" }] .missing))).2).length = 0) := by
  refine ⟨fun ts jobs f => rfl, fun f => ?_, fun f => ?_, by decide⟩
  · cases f <;> rfl
  · cases f <;> rfl

/-- **C9 counterexample** — a corrupt `BotState` file is NOT fatal: the
underlying read/parse fails, but `BotState._load` swallows the error and
returns the default state, exactly the "treat corrupt content as empty"
self-healing the claim reserves for the notification queue alone. -/
theorem botstate_corruption_not_fatal :
    parse_state_text .corrupt = .error ()
    ∧ load_bot_state .corrupt = defaultBotState := by
  refine ⟨rfl, rfl⟩

/-- **C9 (amended)** — self-healing applies to BOTH stores of bot-side
state: corrupt (or missing) `BotState` content loads as the default state
rather than propagating an error, and corrupt notification-queue JSON
reads (and drains) as the empty list; well-formed BotState content is
returned as parsed. -/
theorem corruption_self_healing_scope :
    load_bot_state .corrupt = defaultBotState
    ∧ load_bot_state .missing = defaultBotState
    ∧ (∀ st : BotStateData, load_bot_state (.good st) = st)
    ∧ read_pending_notifications .corrupt = []
    ∧ (consume_notifications .corrupt).1 = [] := by
  refine ⟨rfl, rfl, fun st => rfl, rfl, rfl⟩

/-- **C10** — `send_whatsapp_multi` attempts every message in the input
list, in order, regardless of earlier failures (the attempt log is exactly
the input list), and returns `True` if and only if every individual send
succeeded. -/
theorem send_multi_attempts_all (transport : String → Bool)
    (messages : List String) :
    (send_whatsapp_multi transport messages).1.map Prod.fst = messages
    ∧ ((send_whatsapp_multi transport messages).2 = true ↔
        ∀ m ∈ messages, transport m = true) := by
  have key : ∀ (ms : List String) (l0 : List (String × Bool)) (b0 : Bool),
      ms.foldl (fun acc msg => (acc.1 ++ [(msg, transport msg)], acc.2 && transport msg)) (l0, b0)
        = (l0 ++ ms.map (fun m => (m, transport m)), b0 && ms.all transport) := by
    intro ms
    induction ms with
    | nil => intro l0 b0; simp [List.all_nil]
    | cons m t ih =>
      intro l0 b0
      rw [List.foldl_cons]
      rw [ih (l0 ++ [(m, transport m)]) (b0 && transport m)]
      simp [List.all_cons, Bool.and_assoc]
  rw [show send_whatsapp_multi transport messages
      = (messages.map (fun m => (m, transport m)), messages.all transport) by
    rw [send_whatsapp_multi, key messages [] true]
    simp]
  constructor
  · have : (Prod.fst ∘ fun m => (m, transport m)) = fun (m : String) => m := by
      funext m
      rfl
    show List.map Prod.fst (List.map (fun m => (m, transport m)) messages) = messages
    rw [List.map_map, this]
    exact List.map_id' messages
  · simp [List.all_eq_true]

theorem send_gate (transport : String → Bool) (msgs : List String)
    (x y : BotStateData)
    (h : (send_whatsapp_multi transport
        ((if (send_whatsapp_multi transport msgs).2 = true
          then (msgs, x) else (msgs, y)) : List String × BotStateData).1).2
      = false) :
    (if (send_whatsapp_multi transport msgs).2 = true
      then (msgs, x) else (msgs, y)).2 = y := by
  cases hb : (send_whatsapp_multi transport msgs).2 with
  | false =>
    simp
  | true =>
    have hc : (send_whatsapp_multi transport msgs).2 = true := hb
    rw [if_pos hc] at h
    simp [hb] at h

/-- **C5** — Failed-send baseline stability, per cycle: for each kind of
notification cycle independently, if the transport reports failure for
any part of that cycle's outbound messages (`send_whatsapp_multi` returns
`False`), then that cycle leaves the stored state entirely unchanged — in
particular `last_notify_urls` after the cycle equals its value before. -/
theorem failed_send_baseline_stability (now date_str time_str : String)
    (all_jobs recent_jobs : List Job) (st : BotStateData)
    (transport : String → Bool) :
    ((send_whatsapp_multi transport
        (action_morning_notify now date_str all_jobs recent_jobs st transport).1).2
          = false →
      (action_morning_notify now date_str all_jobs recent_jobs st transport).2 = st)
    ∧ ((send_whatsapp_multi transport
        (action_interval_notify now time_str all_jobs st transport).1).2
          = false →
      (action_interval_notify now time_str all_jobs st transport).2 = st) := by
  constructor
  · intro hm
    simp only [action_morning_notify] at hm ⊢
    exact send_gate transport _ _ _ hm
  · intro hi
    simp only [action_interval_notify] at hi ⊢
    by_cases h1 : st.last_notify_urls = []
    · rw [if_pos h1]
    · by_cases h2 :
        all_jobs.filter (fun j => !(st.last_notify_urls.contains j.url)) = []
      · rw [if_neg h1, if_pos h2]
      · rw [if_neg h1] at hi ⊢
        rw [if_neg h2] at hi ⊢
        exact send_gate transport _ _ _ hi

set_option maxRecDepth 1000000 in
set_option maxHeartbeats 1000000 in
/-- Concrete instance of C5: a transport that always fails, one job newer
than both baselines — the state is unchanged after both cycles. -/
theorem failed_send_baseline_stability_witness :
    (action_morning_notify "2026-10-12T08:05" "Sunday 12 October 2026"
        [{ url := "https://x/b" }] []
        { morning_job_urls := ["https://x/a"], last_notify_urls := ["https://x/a"] }
        (fun _ => false)).2
      = { morning_job_urls := ["https://x/a"], last_notify_urls := ["https://x/a"] }
    ∧ (action_interval_notify "2026-10-12T14:05" "14:05 12 Oct"
        [{ url := "https://x/b" }]
        { morning_job_urls := ["https://x/a"], last_notify_urls := ["https://x/a"] }
        (fun _ => false)).2
      = { morning_job_urls := ["https://x/a"], last_notify_urls := ["https://x/a"] } := by
  have h1 : (send_whatsapp_multi (fun _ => false)
      (action_morning_notify "2026-10-12T08:05" "Sunday 12 October 2026"
        [{ url := "https://x/b" }] []
        { morning_job_urls := ["https://x/a"], last_notify_urls := ["https://x/a"] }
        (fun _ => false)).1).2 = false := by decide
  have h2 : (send_whatsapp_multi (fun _ => false)
      (action_interval_notify "2026-10-12T14:05" "14:05 12 Oct"
        [{ url := "https://x/b" }]
        { morning_job_urls := ["https://x/a"], last_notify_urls := ["https://x/a"] }
        (fun _ => false)).1).2 = false := by decide
  have base := failed_send_baseline_stability "2026-10-12T08:05"
    "Sunday 12 October 2026" "14:05 12 Oct" [{ url := "https://x/b" }] []
    { morning_job_urls := ["https://x/a"], last_notify_urls := ["https://x/a"] }
    (fun _ => false)
  exact ⟨base.1 h1, base.2 h2⟩

/-- **C7** — Digest always fires, alert stays silent: with zero NEW items
the morning digest is exactly one outbound message, and that message
contains the total index count (`📊 {total} jobs in your index.`); the
interval-alert cycle with zero new jobs against the baseline produces zero
outbound messages. -/
theorem digest_fires_alert_silent (date_str now time_str : String)
    (total : Nat) (all_jobs : List Job) (st : BotStateData)
    (transport : String → Bool)
    (hnew : all_jobs.filter (fun j => !(st.last_notify_urls.contains j.url)) = []) :
    (format_morning_digest date_str [] total).length = 1
    ∧ (∃ pre post,
        format_morning_digest date_str [] total
          = [pre ++ toString total ++ post])
    ∧ (action_interval_notify now time_str all_jobs st transport).1 = [] := by
  refine ⟨rfl, ⟨"🏥 *NHS Job Search — Morning Update*\n📅 " ++ date_str ++
    "\n\nNo new roles matching your search since yesterday.\n\n📊 ",
    " jobs in your index.", rfl⟩, ?_⟩
  simp only [action_interval_notify]
  by_cases h1 : st.last_notify_urls = []
  · rw [if_pos h1]
  · rw [if_neg h1, if_pos hnew]

/-- Concrete instance of C7: a one-job store already covered by the
baseline — one digest message, zero alert messages. -/
theorem digest_fires_alert_silent_witness :
    (format_morning_digest "Sunday 12 October 2026" [] 7).length = 1
    ∧ (∃ pre post,
        format_morning_digest "Sunday 12 October 2026" [] 7
          = [pre ++ toString 7 ++ post])
    ∧ (action_interval_notify "2026-10-12T14:05" "14:05 12 Oct"
        [{ url := "https://x/a" }] { last_notify_urls := ["https://x/a"] }
        (fun _ => true)).1 = [] :=
  digest_fires_alert_silent "Sunday 12 October 2026" "2026-10-12T14:05" "14:05 12 Oct"
    7 [{ url := "https://x/a" }] { last_notify_urls := ["https://x/a"] }
    (fun _ => true) (by decide)

/-! ### Helper lemmas about the message batcher -/

theorem strFoldl_hoist (l : List String) :
    ∀ a : String, l.foldl (fun r s => r ++ s) a
      = a ++ l.foldl (fun r s => r ++ s) "" := by
  induction l with
  | nil => intro a; simp [String.append_empty]
  | cons x t ih =>
    intro a
    rw [List.foldl_cons, List.foldl_cons, ih (a ++ x), ih ("" ++ x),
      String.empty_append, String.append_assoc]

theorem strJoin_cons (x : String) (l : List String) :
    String.join (x :: l) = x ++ String.join l := by
  show (x :: l).foldl (fun r s => r ++ s) "" = x ++ l.foldl (fun r s => r ++ s) ""
  rw [List.foldl_cons, strFoldl_hoist l ("" ++ x), String.empty_append]

theorem strJoin_concat (l : List String) (x : String) :
    String.join (l ++ [x]) = String.join l ++ x := by
  show (l ++ [x]).foldl (fun r s => r ++ s) "" = _
  rw [List.foldl_append]
  rfl

theorem strJoin_length (l : List String) :
    (String.join l).length = (l.map String.length).sum := by
  induction l with
  | nil => rfl
  | cons x t ih =>
    rw [strJoin_cons, String.length_append, List.map_cons, List.sum_cons, ih]

/-- The running length invariant of the `_split_messages` loop:
`current_len` counts the pending entries plus the header when no message
has been flushed yet. -/
def okLen (header : String) (st : SplitState) : Prop :=
  st.currentLen
    = (if st.messages = [] then header.length else 0)
      + (st.current.map String.length).sum

/-- Size bound satisfied by every flushed message: within the limit unless
it is the bare header+footer message or carries a single oversized
entry. -/
def msgBound (header footer : String) (S : List String) (m : String) : Prop :=
  m.length ≤ WHATSAPP_CHAR_LIMIT
  ∨ m.length ≤ header.length + footer.length
  ∨ ∃ e ∈ S, m.length ≤ header.length + e.length + footer.length

/-- The corresponding bound on the message being accumulated. -/
def curBound (header footer : String) (S : List String) (st : SplitState) : Prop :=
  st.currentLen + footer.length ≤ WHATSAPP_CHAR_LIMIT
  ∨ st.currentLen + footer.length ≤ header.length + footer.length
  ∨ ∃ e ∈ S, st.currentLen + footer.length
      ≤ header.length + e.length + footer.length

theorem split_step_invariant (header footer : String) (S : List String)
    (st : SplitState) (e : String) (he : e ∈ S)
    (h1 : okLen header st)
    (h2 : ∀ m ∈ st.messages, msgBound header footer S m)
    (h3 : curBound header footer S st) :
    okLen header (splitStep header footer st e)
    ∧ (∀ m ∈ (splitStep header footer st e).messages,
        msgBound header footer S m)
    ∧ curBound header footer S (splitStep header footer st e) := by
  unfold splitStep
  split
  case isTrue hcond =>
    have hlen : ((if st.messages = [] then header else "")
        ++ String.join st.current).length = st.currentLen := by
      rw [String.length_append, strJoin_length, h1]
      by_cases hm : st.messages = [] <;> simp [hm]
    refine ⟨?_, ?_, ?_⟩
    · show e.length = _
      simp [okLen]
    · intro m hm
      rcases List.mem_append.mp hm with hm | hm
      · exact h2 m hm
      · rw [List.mem_singleton.mp hm]
        rcases h3 with h | h | ⟨x, hx, h⟩
        · exact Or.inl (by rw [hlen]; omega)
        · exact Or.inr (Or.inl (by rw [hlen]; omega))
        · exact Or.inr (Or.inr ⟨x, hx, by rw [hlen]; omega⟩)
    · refine Or.inr (Or.inr ⟨e, he, ?_⟩)
      show e.length + footer.length ≤ _
      omega
  case isFalse hcond =>
    refine ⟨?_, h2, ?_⟩
    · show st.currentLen + e.length = _
      rw [h1]
      by_cases hm : st.messages = [] <;> simp [hm, okLen] <;> omega
    · by_cases hlt :
        WHATSAPP_CHAR_LIMIT < st.currentLen + e.length + footer.length
      · have hcur : st.current = [] := by
          by_contra hne
          exact hcond ⟨hlt, hne⟩
        have hcl : st.currentLen = if st.messages = [] then header.length else 0 := by
          rw [h1, hcur]
          simp
        refine Or.inr (Or.inr ⟨e, he, ?_⟩)
        show st.currentLen + e.length + footer.length ≤ _
        rw [hcl]
        by_cases hm : st.messages = [] <;> simp [hm] <;> omega
      · exact Or.inl (by show st.currentLen + e.length + footer.length ≤ _; omega)

theorem split_fold_invariant (header footer : String) (S : List String) :
    ∀ (es : List String) (st : SplitState),
    (∀ e ∈ es, e ∈ S) →
    okLen header st →
    (∀ m ∈ st.messages, msgBound header footer S m) →
    curBound header footer S st →
    okLen header (es.foldl (splitStep header footer) st)
    ∧ (∀ m ∈ (es.foldl (splitStep header footer) st).messages,
        msgBound header footer S m)
    ∧ curBound header footer S (es.foldl (splitStep header footer) st) := by
  intro es
  induction es with
  | nil => exact fun st _ h1 h2 h3 => ⟨h1, h2, h3⟩
  | cons e t ih =>
    intro st hS h1 h2 h3
    rw [List.foldl_cons]
    have hstep := split_step_invariant header footer S st e
      (hS e (List.mem_cons_self e t)) h1 h2 h3
    exact ih (splitStep header footer st e)
      (fun x hx => hS x (List.mem_cons_of_mem e hx))
      hstep.1 hstep.2.1 hstep.2.2

theorem split_fold_messages_nil (header footer : String) :
    ∀ (es : List String) (st : SplitState),
    (st.current = [] → st.messages = []) →
    ((es.foldl (splitStep header footer) st).current = []
      → (es.foldl (splitStep header footer) st).messages = []) := by
  intro es
  induction es with
  | nil => exact fun st h => h
  | cons e t ih =>
    intro st h
    rw [List.foldl_cons]
    apply ih
    intro hcur
    exfalso
    revert hcur
    unfold splitStep
    split <;> simp

/-- The content accumulated so far: flushed messages, the header slot,
and the pending entries. -/
def joinState (header : String) (st : SplitState) : String :=
  String.join st.messages
    ++ (if st.messages = [] then header else "")
    ++ String.join st.current

theorem joinState_step (header footer : String) (st : SplitState) (e : String) :
    joinState header (splitStep header footer st e) = joinState header st ++ e := by
  unfold splitStep
  split
  · show joinState header ⟨_, _, _⟩ = _
    unfold joinState
    simp only []
    rw [strJoin_concat]
    have hne : ¬ st.messages ++
        [(if st.messages = [] then header else "") ++ String.join st.current] = [] := by
      simp
    rw [if_neg hne, strJoin_cons]
    simp [show String.join ([] : List String) = "" from rfl,
      String.append_empty, String.append_assoc]
  · show joinState header ⟨_, _, _⟩ = _
    unfold joinState
    simp only []
    rw [strJoin_concat]
    simp [String.append_assoc]

theorem split_fold_join (header footer : String) :
    ∀ (es : List String) (st : SplitState),
    joinState header (es.foldl (splitStep header footer) st)
      = joinState header st ++ String.join es := by
  intro es
  induction es with
  | nil =>
    intro st
    simp [show String.join ([] : List String) = "" from rfl, String.append_empty]
  | cons e t ih =>
    intro st
    rw [List.foldl_cons, ih, joinState_step header footer st e, strJoin_cons,
      String.append_assoc]

theorem split_core_eq (header footer : String) (es : List String) :
    split_core header es footer
      = (es.foldl (splitStep header footer) ⟨[], [], header.length⟩).messages
        ++ [(if (es.foldl (splitStep header footer) ⟨[], [], header.length⟩).messages = []
              then header else "")
            ++ String.join
                (es.foldl (splitStep header footer) ⟨[], [], header.length⟩).current
            ++ footer] := by
  unfold split_core
  have hreach := split_fold_messages_nil header footer es
    ⟨[], [], header.length⟩ (fun _ => rfl)
  have hdisj : (es.foldl (splitStep header footer) ⟨[], [], header.length⟩).current ≠ []
      ∨ (es.foldl (splitStep header footer) ⟨[], [], header.length⟩).messages = [] := by
    by_cases hc : (es.foldl (splitStep header footer) ⟨[], [], header.length⟩).current = []
    · exact Or.inr (hreach hc)
    · exact Or.inl hc
  rw [if_pos hdisj]

theorem split_fold_join_init (header footer : String) (es : List String) :
    String.join (es.foldl (splitStep header footer) ⟨[], [], header.length⟩).messages
      ++ (if (es.foldl (splitStep header footer) ⟨[], [], header.length⟩).messages = []
          then header else "")
      ++ String.join (es.foldl (splitStep header footer) ⟨[], [], header.length⟩).current
      = header ++ String.join es := by
  have hjs := split_fold_join header footer es ⟨[], [], header.length⟩
  unfold joinState at hjs
  rw [hjs]
  simp [show String.join ([] : List String) = "" from rfl,
    String.append_empty, String.empty_append]

/-- **C6 (amended)** — Message batching: (1) the packed messages (before
part markers) concatenate to exactly `header ++ entries ++ footer`, so
entry content is reproduced in original order exactly once and an
over-long entry is emitted whole, never dropped; (2) every packed message
is within the 1500-character limit unless it is the lone header+footer
message or carries a single entry whose `header+entry+footer` rendering
already exceeds the limit alone (in which case it is bounded by that
quantity — and may exceed 1500 and the 1600 hard cap); (3) when more than
one message results, each outbound message is exactly the `"[i/N]\n"` part
marker prepended to the corresponding packed message, and a single-message
result carries no marker. -/
theorem message_batching_amended (header footer : String)
    (entries : List String) :
    String.join (split_core header entries footer)
      = header ++ String.join entries ++ footer
    ∧ (∀ m ∈ split_core header entries footer,
        m.length ≤ WHATSAPP_CHAR_LIMIT
        ∨ m.length ≤ header.length + footer.length
        ∨ ∃ e ∈ entries, m.length ≤ header.length + e.length + footer.length)
    ∧ (1 < (split_core header entries footer).length →
        ∀ i : Nat,
          (split_messages header entries footer)[i]?
            = ((split_core header entries footer)[i]?).map
                (fun m => partMarker (i + 1)
                  (split_core header entries footer).length ++ m))
    ∧ ((split_core header entries footer).length ≤ 1 →
        split_messages header entries footer
          = split_core header entries footer) := by
  have hinv := split_fold_invariant header footer entries entries
    ⟨[], [], header.length⟩ (fun e he => he)
    (by simp [okLen]) (fun m hm => absurd hm (List.not_mem_nil m))
    (Or.inr (Or.inl (le_refl _)))
  have hcore := split_core_eq header footer entries
  refine ⟨?_, ?_, ?_, ?_⟩
  · rw [hcore, strJoin_concat]
    have h2 := congrArg (fun s => s ++ footer) (split_fold_join_init header footer entries)
    simp only [String.append_assoc] at h2 ⊢
    exact h2
  · intro m hm
    rw [hcore] at hm
    rcases List.mem_append.mp hm with hm | hm
    · exact hinv.2.1 m hm
    · rw [List.mem_singleton.mp hm]
      have hlen : ((if (entries.foldl (splitStep header footer)
            ⟨[], [], header.length⟩).messages = [] then header else "")
          ++ String.join (entries.foldl (splitStep header footer)
            ⟨[], [], header.length⟩).current ++ footer).length
          = (entries.foldl (splitStep header footer)
              ⟨[], [], header.length⟩).currentLen + footer.length := by
        rw [String.length_append, String.length_append, strJoin_length,
          hinv.1]
        by_cases hmm : (entries.foldl (splitStep header footer)
            ⟨[], [], header.length⟩).messages = [] <;> simp [hmm]
      rcases hinv.2.2 with h | h | ⟨x, hx, h⟩
      · exact Or.inl (by rw [hlen]; exact h)
      · exact Or.inr (Or.inl (by rw [hlen]; exact h))
      · exact Or.inr (Or.inr ⟨x, hx, by rw [hlen]; exact h⟩)
  · intro hgt i
    unfold split_messages
    rw [if_pos hgt]
    exact List.getElem?_mapIdx
  · intro hle
    unfold split_messages
    rw [if_neg (by omega)]

/-- Concrete instance of the amended C6 at a small header, two entries and
a footer. -/
theorem message_batching_amended_witness :
    String.join (split_core "HDR:" ["alpha", "beta"] ":FTR")
      = "HDR:" ++ String.join ["alpha", "beta"] ++ ":FTR"
    ∧ (∀ m ∈ split_core "HDR:" ["alpha", "beta"] ":FTR",
        m.length ≤ WHATSAPP_CHAR_LIMIT
        ∨ m.length ≤ "HDR:".length + ":FTR".length
        ∨ ∃ e ∈ ["alpha", "beta"],
            m.length ≤ "HDR:".length + e.length + ":FTR".length)
    ∧ (1 < (split_core "HDR:" ["alpha", "beta"] ":FTR").length →
        ∀ i : Nat,
          (split_messages "HDR:" ["alpha", "beta"] ":FTR")[i]?
            = ((split_core "HDR:" ["alpha", "beta"] ":FTR")[i]?).map
                (fun m => partMarker (i + 1)
                  (split_core "HDR:" ["alpha", "beta"] ":FTR").length ++ m))
    ∧ ((split_core "HDR:" ["alpha", "beta"] ":FTR").length ≤ 1 →
        split_messages "HDR:" ["alpha", "beta"] ":FTR"
          = split_core "HDR:" ["alpha", "beta"] ":FTR") :=
  message_batching_amended "HDR:" ":FTR" ["alpha", "beta"]

/-- A single entry of 1601 characters. -/
def oversizedEntry : String := String.mk (List.replicate 1601 'x')

set_option maxRecDepth 1000000 in
/-- **C6 counterexample** — the claimed universal size bound is false: a
single 1601-character entry with empty header and footer is emitted as one
message of 1601 characters, exceeding both the 1500-character limit and
the documented 1600-character hard cap. -/
theorem message_batching_counterexample :
    (split_messages "" [oversizedEntry] "").length = 1
    ∧ ((split_messages "" [oversizedEntry] "").all
        (fun m => m.length ≤ 1600)) = false := by
  refine ⟨by decide, by decide⟩
